import Mathlib

/-!
Verification of the web-serial-monitor core (shallow embedding of the
App component in `src/unnamed/part_001`).

The embedding covers: the bounded log buffer (`addLog`,
`calculateBufferSize`, lines 186-245), the session disconnect procedure
(lines 247-290), the serial connect procedure (lines 427-450), the
chunked file-transfer loop (`handleFileSend`, serial branch, lines
634-675), the send-queue drain (`processSendQueue`, lines 679-723) and
the WebSocket reconnect supervisor (lines 403-419, 260-274).

Machine integers in the source are JavaScript numbers used as array
indices and byte counts; all values involved are small non-negative
integers, modelled as `Nat`.  `Uint8Array` payloads are modelled as
`List Nat`.  The random `id` and the `timestamp` fields of a log entry
are omitted: no operation of the program reads them.
-/

namespace WebSerial

/-- Log entry kind, mirroring `LogEntry.type : 'rx' | 'tx' | 'info' | 'error'`
in `src/types.ts`. -/
inductive LogType where
  | rx
  | tx
  | info
  | error
deriving DecidableEq, Repr

/-- A log entry (`LogEntry` in `src/types.ts`), without the random `id`
and the `timestamp`, which no program operation reads. -/
structure LogEntry where
  type : LogType
  data : List Nat
  text : String
  byteCount : Nat
deriving DecidableEq, Repr

/-- The entry built by `addLog` (part_001 lines 206-213):
`byteCount` is set to `data.length`. -/
def mkLogEntry (ty : LogType) (data : List Nat) (text : String) : LogEntry :=
  { type := ty, data := data, text := text, byteCount := data.length }

/-- `calculateBufferSize` (part_001 lines 186-191): sums `log.data.length`
over all entries. -/
def calculateBufferSize (logs : List LogEntry) : Nat :=
  logs.foldl (fun total log => total + log.data.length) 0

/-- The byte-eviction loop of `addLog` (part_001 lines 233-237):
`while (calculateBufferSize(tempLogs) > max && tempLogs.length > 10) tempLogs.shift()`. -/
def evictOldest (maxB : Nat) : List LogEntry → List LogEntry
  | [] => []
  | l :: ls =>
    if maxB < calculateBufferSize (l :: ls) ∧ 10 < (l :: ls).length then
      evictOldest maxB ls
    else l :: ls

/-- `addLog` (part_001 lines 193-245): append the new entry, then (1) if
the count exceeds 1000 keep only the last 500 (`slice(-500)`), otherwise
(2) if the byte total exceeds `maxB` run the oldest-first eviction loop. -/
def addLog (maxB : Nat) (prev : List LogEntry) (ty : LogType) (data : List Nat)
    (newText : String) : List LogEntry :=
  let newLog := mkLogEntry ty data newText
  let updatedLogs := prev ++ [newLog]
  if 1000 < updatedLogs.length then
    updatedLogs.drop (updatedLogs.length - 500)
  else
    let currentSize := calculateBufferSize updatedLogs
    if maxB < currentSize then
      evictOldest maxB updatedLogs
    else
      updatedLogs

theorem calculateBufferSize_eq_sum (l : List LogEntry) :
    calculateBufferSize l = (l.map fun e => e.data.length).sum := by
  have h : ∀ (l : List LogEntry) (a : Nat),
      l.foldl (fun total log => total + log.data.length) a
        = a + (l.map fun e => e.data.length).sum := by
    intro l
    induction l with
    | nil => intro a; simp
    | cons x xs ih => intro a; simp [List.foldl_cons, ih, Nat.add_assoc]
  simpa [calculateBufferSize] using h l 0

theorem calculateBufferSize_append (l₁ l₂ : List LogEntry) :
    calculateBufferSize (l₁ ++ l₂) = calculateBufferSize l₁ + calculateBufferSize l₂ := by
  simp [calculateBufferSize_eq_sum]

theorem calculateBufferSize_cons (e : LogEntry) (l : List LogEntry) :
    calculateBufferSize (e :: l) = e.data.length + calculateBufferSize l := by
  simp [calculateBufferSize_eq_sum]

/-- Characterisation of the byte-eviction loop: it returns a suffix of its
input, obtained by removing oldest entries one at a time, stopping at the
first point where the byte total is within the ceiling or at most 10
entries remain. -/
theorem evictOldest_spec (maxB : Nat) (l : List LogEntry) :
    ∃ k, evictOldest maxB l = l.drop k ∧
      (calculateBufferSize (l.drop k) ≤ maxB ∨ (l.drop k).length ≤ 10) ∧
      ∀ j, j < k → maxB < calculateBufferSize (l.drop j) ∧ 10 < (l.drop j).length := by
  induction l with
  | nil =>
    refine ⟨0, rfl, Or.inr (by simp), ?_⟩
    intro j hj; omega
  | cons x xs ih =>
    by_cases h : maxB < calculateBufferSize (x :: xs) ∧ 10 < (x :: xs).length
    · obtain ⟨k, hk1, hk2, hk3⟩ := ih
      refine ⟨k + 1, ?_, ?_, ?_⟩
      · rw [evictOldest, if_pos h, List.drop_succ_cons]; exact hk1
      · simpa [List.drop_succ_cons] using hk2
      · intro j hj
        match j with
        | 0 => simpa using h
        | j + 1 =>
          rw [List.drop_succ_cons]
          exact hk3 j (by omega)
    · refine ⟨0, ?_, ?_, ?_⟩
      · rw [evictOldest, if_neg h, List.drop_zero]
      · rw [not_and_or] at h
        rw [List.drop_zero]
        rcases h with h | h
        · exact Or.inl (by omega)
        · exact Or.inr (by omega)
      · intro j hj; omega

theorem evictOldest_mem (maxB : Nat) (l : List LogEntry) (x : LogEntry)
    (hx : x ∈ evictOldest maxB l) : x ∈ l := by
  obtain ⟨k, hk, -, -⟩ := evictOldest_spec maxB l
  rw [hk] at hx
  exact List.drop_subset k l hx

theorem evictOldest_length_le (maxB : Nat) (l : List LogEntry) :
    (evictOldest maxB l).length ≤ l.length := by
  obtain ⟨k, hk, -, -⟩ := evictOldest_spec maxB l
  rw [hk, List.length_drop]; omega

/-- Every entry of the buffer after an append is either an old entry or the
newly created one. -/
theorem mem_addLog (maxB : Nat) (prev : List LogEntry) (ty : LogType)
    (data : List Nat) (t : String) (x : LogEntry)
    (hx : x ∈ addLog maxB prev ty data t) :
    x ∈ prev ∨ x = mkLogEntry ty data t := by
  have hup : x ∈ prev ++ [mkLogEntry ty data t] → x ∈ prev ∨ x = mkLogEntry ty data t := by
    intro h
    rcases List.mem_append.mp h with h | h
    · exact Or.inl h
    · exact Or.inr (List.mem_singleton.mp h)
  unfold addLog at hx
  simp only at hx
  split at hx
  · exact hup (List.drop_subset _ _ hx)
  · split at hx
    · exact hup (evictOldest_mem _ _ _ hx)
    · exact hup hx

/-- When neither ceiling is hit, `addLog` is a plain append. -/
theorem addLog_eq_append (maxB : Nat) (prev : List LogEntry) (ty : LogType)
    (data : List Nat) (t : String)
    (h1 : prev.length + 1 ≤ 1000)
    (h2 : calculateBufferSize prev + data.length ≤ maxB) :
    addLog maxB prev ty data t = prev ++ [mkLogEntry ty data t] := by
  unfold addLog
  simp only
  rw [if_neg, if_neg]
  · rw [calculateBufferSize_append, calculateBufferSize_eq_sum [mkLogEntry ty data t]]
    simp [mkLogEntry]
    omega
  · simp only [List.length_append, List.length_singleton]
    omega

/-- Byte footprint over received/sent entries only: the quantity the spec
calls the "total raw-byte footprint (sum of byte counts over entries of
kind received/sent)". -/
def rxTxBytes (logs : List LogEntry) : Nat :=
  ((logs.filter fun e => e.type == LogType.rx || e.type == LogType.tx).map
    fun e => e.data.length).sum

/-- Log-buffer states reachable by the program: every `addLog` call site in
part_001 with type `info` or `error` passes `new Uint8Array()` (an empty
payload); `rx`/`tx` appends carry arbitrary payloads.  `maxB` may differ
between appends (the user can change the ceiling at any time). -/
inductive ReachableLog : List LogEntry → Prop where
  | empty : ReachableLog []
  | rxStep (maxB : Nat) (l : List LogEntry) (data : List Nat) (text : String) :
      ReachableLog l → ReachableLog (addLog maxB l LogType.rx data text)
  | txStep (maxB : Nat) (l : List LogEntry) (data : List Nat) (text : String) :
      ReachableLog l → ReachableLog (addLog maxB l LogType.tx data text)
  | infoStep (maxB : Nat) (l : List LogEntry) (text : String) :
      ReachableLog l → ReachableLog (addLog maxB l LogType.info [] text)
  | errStep (maxB : Nat) (l : List LogEntry) (text : String) :
      ReachableLog l → ReachableLog (addLog maxB l LogType.error [] text)

theorem rxTxBytes_of_empty_info_error (l : List LogEntry)
    (h : ∀ e ∈ l, (e.type = LogType.info ∨ e.type = LogType.error) → e.data = []) :
    calculateBufferSize l = rxTxBytes l := by
  induction l with
  | nil => rfl
  | cons x xs ih =>
    have hx := h x (List.mem_cons_self x xs)
    have hxs := ih fun e he => h e (List.mem_cons_of_mem x he)
    rw [calculateBufferSize_cons, hxs]
    cases hty : x.type with
    | rx => simp [rxTxBytes, hty]
    | tx => simp [rxTxBytes, hty]
    | info =>
      have : x.data = [] := hx (Or.inl hty)
      simp [rxTxBytes, hty, this]
    | error =>
      have : x.data = [] := hx (Or.inr hty)
      simp [rxTxBytes, hty, this]

/-- Claim C10: every info and error log entry is created with an empty byte
payload (so `byteCount = 0`), hence on every reachable buffer state the byte
footprint summed over all entries (`calculateBufferSize`) equals the sum
over received/sent entries only. -/
theorem info_error_entries_empty_bytes (l : List LogEntry) (h : ReachableLog l) :
    (∀ e ∈ l, (e.type = LogType.info ∨ e.type = LogType.error) →
      e.data = [] ∧ e.byteCount = 0) ∧
    calculateBufferSize l = rxTxBytes l := by
  have hmain : ∀ e ∈ l, (e.type = LogType.info ∨ e.type = LogType.error) →
      e.data = [] ∧ e.byteCount = 0 := by
    induction h with
    | empty => intro e he; simp at he
    | rxStep maxB l data text _ ih =>
      intro e he hty
      rcases mem_addLog _ _ _ _ _ _ he with hmem | rfl
      · exact ih e hmem hty
      · simp [mkLogEntry] at hty
    | txStep maxB l data text _ ih =>
      intro e he hty
      rcases mem_addLog _ _ _ _ _ _ he with hmem | rfl
      · exact ih e hmem hty
      · simp [mkLogEntry] at hty
    | infoStep maxB l text _ ih =>
      intro e he _
      rcases mem_addLog _ _ _ _ _ _ he with hmem | rfl
      · exact ih e hmem ‹_›
      · exact ⟨rfl, rfl⟩
    | errStep maxB l text _ ih =>
      intro e he _
      rcases mem_addLog _ _ _ _ _ _ he with hmem | rfl
      · exact ih e hmem ‹_›
      · exact ⟨rfl, rfl⟩
  exact ⟨hmain, rxTxBytes_of_empty_info_error l fun e he hty => (hmain e he hty).1⟩

/-- Witness for C10 at a concrete reachable state (an info append followed
by a two-byte rx append). -/
theorem info_error_entries_empty_bytes_witness :
    (∀ e ∈ addLog 100 (addLog 100 [] LogType.info [] "connected") LogType.rx [1, 2] "ab",
      (e.type = LogType.info ∨ e.type = LogType.error) → e.data = [] ∧ e.byteCount = 0) ∧
    calculateBufferSize
        (addLog 100 (addLog 100 [] LogType.info [] "connected") LogType.rx [1, 2] "ab")
      = rxTxBytes
        (addLog 100 (addLog 100 [] LogType.info [] "connected") LogType.rx [1, 2] "ab") :=
  info_error_entries_empty_bytes _
    (ReachableLog.rxStep 100 _ [1, 2] "ab" (ReachableLog.infoStep 100 [] "connected" ReachableLog.empty))

/-- Counterexample to claim C1 as stated: a single append whose payload
exceeds the configured ceiling leaves the buffer over the byte ceiling
(the eviction loop refuses to run below 11 entries), so the byte-footprint
invariant fails after that append completes. -/
theorem addLog_byte_ceiling_violated :
    5 < calculateBufferSize (addLog 5 [] LogType.rx [0, 0, 0, 0, 0, 0] "abc") := by
  decide

/-- Claim C1, amended: after any append (from a state with at most 1000
entries) the entry count never exceeds 1000, and the byte total is within
the ceiling unless either at most 10 entries remain (the eviction loop's
floor) or this append overflowed the 1000-entry count, in which case the
most recent 500 entries are kept with no byte check at all. -/
theorem addLog_bounds_amended (maxB : Nat) (prev : List LogEntry) (ty : LogType)
    (data : List Nat) (t : String) (h : prev.length ≤ 1000) :
    (addLog maxB prev ty data t).length ≤ 1000 ∧
    (calculateBufferSize (addLog maxB prev ty data t) ≤ maxB ∨
      (addLog maxB prev ty data t).length ≤ 10 ∨
      (prev.length = 1000 ∧ (addLog maxB prev ty data t).length = 500)) := by
  unfold addLog
  simp only
  split
  · rename_i hcnt
    simp only [List.length_append, List.length_singleton] at hcnt
    constructor
    · rw [List.length_drop]; omega
    · refine Or.inr (Or.inr ⟨by omega, ?_⟩)
      rw [List.length_drop]
      simp only [List.length_append, List.length_singleton]
      omega
  · rename_i hcnt
    simp only [List.length_append, List.length_singleton] at hcnt
    split
    · obtain ⟨k, hk, hstop, -⟩ := evictOldest_spec maxB (prev ++ [mkLogEntry ty data t])
      rw [hk]
      constructor
      · rw [List.length_drop]
        simp only [List.length_append, List.length_singleton]
        omega
      · rcases hstop with hs | hs
        · exact Or.inl hs
        · exact Or.inr (Or.inl hs)
    · rename_i hsz
      constructor
      · simp only [List.length_append, List.length_singleton]
        omega
      · exact Or.inl (by omega)

theorem addLog_bounds_amended_witness :
    ([] : List LogEntry).length ≤ 1000 ∧
    ((addLog 5 [] LogType.rx [0, 0, 0, 0, 0, 0] "abc").length ≤ 1000 ∧
      (calculateBufferSize (addLog 5 [] LogType.rx [0, 0, 0, 0, 0, 0] "abc") ≤ 5 ∨
        (addLog 5 [] LogType.rx [0, 0, 0, 0, 0, 0] "abc").length ≤ 10 ∨
        (([] : List LogEntry).length = 1000 ∧
          (addLog 5 [] LogType.rx [0, 0, 0, 0, 0, 0] "abc").length = 500))) :=
  ⟨by decide, addLog_bounds_amended 5 [] LogType.rx [0, 0, 0, 0, 0, 0] "abc" (by decide)⟩

/-- Claim C5: an append that pushes the count above 1000 keeps exactly the
most recent 500 entries, for every byte ceiling. -/
theorem addLog_count_trim_keeps_recent_500 (maxB : Nat) (prev : List LogEntry)
    (ty : LogType) (data : List Nat) (t : String) (h : 1000 < prev.length + 1) :
    addLog maxB prev ty data t
      = (prev ++ [mkLogEntry ty data t]).drop (prev.length + 1 - 500) ∧
    (addLog maxB prev ty data t).length = 500 := by
  have hlen : (prev ++ [mkLogEntry ty data t]).length = prev.length + 1 := by
    simp
  have heq : addLog maxB prev ty data t
      = (prev ++ [mkLogEntry ty data t]).drop (prev.length + 1 - 500) := by
    unfold addLog
    simp only
    rw [if_pos (by omega : 1000 < (prev ++ [mkLogEntry ty data t]).length), hlen]
  refine ⟨heq, ?_⟩
  rw [heq, List.length_drop, hlen]
  omega

theorem addLog_count_trim_keeps_recent_500_witness :
    1000 < (List.replicate 1000 (mkLogEntry LogType.rx [] "x")).length + 1 ∧
    (addLog 0 (List.replicate 1000 (mkLogEntry LogType.rx [] "x")) LogType.rx [] "x").length
      = 500 :=
  ⟨by rw [List.length_replicate]; omega,
    (addLog_count_trim_keeps_recent_500 0 (List.replicate 1000 (mkLogEntry LogType.rx [] "x"))
      LogType.rx [] "x" (by rw [List.length_replicate]; omega)).2⟩

/-- Claim C6: an append that pushes the byte total above the ceiling while
the count stays within 1000 evicts entries from the oldest end one at a
time, stopping at the first point where the total is within the ceiling or
only 10 entries remain. -/
theorem addLog_byte_eviction_oldest_first (maxB : Nat) (prev : List LogEntry)
    (ty : LogType) (data : List Nat) (t : String)
    (hcount : prev.length + 1 ≤ 1000)
    (hsize : maxB < calculateBufferSize (prev ++ [mkLogEntry ty data t])) :
    ∃ k, addLog maxB prev ty data t = (prev ++ [mkLogEntry ty data t]).drop k ∧
      (calculateBufferSize ((prev ++ [mkLogEntry ty data t]).drop k) ≤ maxB ∨
        ((prev ++ [mkLogEntry ty data t]).drop k).length ≤ 10) ∧
      ∀ j, j < k → maxB < calculateBufferSize ((prev ++ [mkLogEntry ty data t]).drop j) ∧
        10 < ((prev ++ [mkLogEntry ty data t]).drop j).length := by
  have heq : addLog maxB prev ty data t = evictOldest maxB (prev ++ [mkLogEntry ty data t]) := by
    unfold addLog
    simp only
    rw [if_neg (by simp; omega), if_pos hsize]
  rw [heq]
  exact evictOldest_spec maxB (prev ++ [mkLogEntry ty data t])

theorem addLog_byte_eviction_oldest_first_witness :
    (List.replicate 12 (mkLogEntry LogType.rx [0] "a")).length + 1 ≤ 1000 ∧
    10 < calculateBufferSize
      (List.replicate 12 (mkLogEntry LogType.rx [0] "a") ++ [mkLogEntry LogType.rx [0] "a"]) ∧
    ∃ k, addLog 10 (List.replicate 12 (mkLogEntry LogType.rx [0] "a")) LogType.rx [0] "a"
        = (List.replicate 12 (mkLogEntry LogType.rx [0] "a") ++ [mkLogEntry LogType.rx [0] "a"]).drop k ∧
      (calculateBufferSize
          ((List.replicate 12 (mkLogEntry LogType.rx [0] "a") ++ [mkLogEntry LogType.rx [0] "a"]).drop k) ≤ 10 ∨
        ((List.replicate 12 (mkLogEntry LogType.rx [0] "a") ++ [mkLogEntry LogType.rx [0] "a"]).drop k).length ≤ 10) ∧
      ∀ j, j < k →
        10 < calculateBufferSize
          ((List.replicate 12 (mkLogEntry LogType.rx [0] "a") ++ [mkLogEntry LogType.rx [0] "a"]).drop j) ∧
        10 < ((List.replicate 12 (mkLogEntry LogType.rx [0] "a") ++ [mkLogEntry LogType.rx [0] "a"]).drop j).length :=
  ⟨by decide, by decide,
    addLog_byte_eviction_oldest_first 10 (List.replicate 12 (mkLogEntry LogType.rx [0] "a"))
      LogType.rx [0] "a" (by decide) (by decide)⟩

/-- `CommMode` from `src/types.ts`. -/
inductive CommMode where
  | serial
  | websocket
  | bluetooth
deriving DecidableEq, Repr

/-- The session state owned by the App component (part_001 lines 66-125):
the React state variables and refs that the connect/disconnect procedures
read and write.  Opaque browser handles (`SerialPort`, `WebSocket`,
reader, GATT device/characteristic, timer handle) are modelled as
`Option Unit` — present or absent. -/
structure AppState where
  commMode : CommMode
  isConnected : Bool
  isPaused : Bool
  logs : List LogEntry
  maxBufferSize : Nat
  baudRate : Nat
  port : Option Unit
  reader : Option Unit
  keepReading : Bool
  ws : Option Unit
  shouldReconnect : Bool
  reconnectTimer : Option Unit
  isReconnecting : Bool
  btDevice : Option Unit
  btCharacteristic : Option Unit
deriving DecidableEq, Repr

/-- Initial component state (part_001 lines 66-125): disconnected, not
paused, empty log, 100 KB ceiling, `keepReadingRef=true`,
`shouldReconnectRef=true`. -/
def initialState : AppState :=
  { commMode := CommMode.serial, isConnected := false, isPaused := false,
    logs := [], maxBufferSize := 100 * 1024, baudRate := 115200,
    port := none, reader := none, keepReading := true, ws := none,
    shouldReconnect := true, reconnectTimer := none, isReconnecting := false,
    btDevice := none, btCharacteristic := none }

/-- The info message logged by `disconnect` in each mode (part_001 lines
259, 274, 288). -/
def closedText : CommMode → String
  | CommMode.serial => "串口已关闭"
  | CommMode.websocket => "WebSocket 已关闭"
  | CommMode.bluetooth => "蓝牙已断开"

def closedEntry (m : CommMode) : LogEntry :=
  mkLogEntry LogType.info [] (closedText m)

/-- `disconnect` (part_001 lines 247-290).  Each branch tears down its
transport handles, resets the connected/paused flags, and unconditionally
appends one info "closed" entry; there is no guard against being invoked
while already disconnected. -/
def disconnect (s : AppState) : AppState :=
  match s.commMode with
  | CommMode.bluetooth =>
    { s with
      btDevice := none
      btCharacteristic := none
      isConnected := false
      isPaused := false
      logs := addLog s.maxBufferSize s.logs LogType.info [] (closedText CommMode.bluetooth) }
  | CommMode.websocket =>
    { s with
      shouldReconnect := false
      isReconnecting := false
      reconnectTimer := none
      ws := none
      isConnected := false
      isPaused := false
      logs := addLog s.maxBufferSize s.logs LogType.info [] (closedText CommMode.websocket) }
  | CommMode.serial =>
    { s with
      keepReading := false
      reader := none
      port := none
      isConnected := false
      isPaused := false
      logs := addLog s.maxBufferSize s.logs LogType.info [] (closedText CommMode.serial) }

/-- Counterexample to claim C3 as stated: from the initial (already
disconnected) state, invoking `disconnect` twice produces two "closed"
info entries, and a single invocation already mutates the log, so the call
is not a no-op in `Disconnected`. -/
theorem disconnect_twice_logs_two_closed :
    initialState.isConnected = false ∧
    (disconnect initialState).logs = [closedEntry CommMode.serial] ∧
    (disconnect (disconnect initialState)).logs
      = [closedEntry CommMode.serial, closedEntry CommMode.serial] := by
  refine ⟨rfl, ?_, ?_⟩ <;> rfl

/-- Claim C3, amended: every `disconnect` invocation unconditionally
appends exactly one "closed" info entry — two consecutive calls append
two — and it is idempotent only on the session flags and handles
(connected, paused, port/ws/timers), not on the log. -/
theorem disconnect_double_amended (s : AppState)
    (h1 : s.logs.length + 2 ≤ 1000)
    (h2 : calculateBufferSize s.logs ≤ s.maxBufferSize) :
    (disconnect s).isConnected = false ∧ (disconnect s).isPaused = false ∧
    (disconnect s).logs = s.logs ++ [closedEntry s.commMode] ∧
    (disconnect (disconnect s)).logs
      = s.logs ++ [closedEntry s.commMode, closedEntry s.commMode] ∧
    (disconnect (disconnect s)).isConnected = (disconnect s).isConnected ∧
    (disconnect (disconnect s)).isPaused = (disconnect s).isPaused ∧
    (disconnect (disconnect s)).port = (disconnect s).port ∧
    (disconnect (disconnect s)).ws = (disconnect s).ws ∧
    (disconnect (disconnect s)).reconnectTimer = (disconnect s).reconnectTimer ∧
    (disconnect (disconnect s)).shouldReconnect = (disconnect s).shouldReconnect ∧
    (disconnect (disconnect s)).btDevice = (disconnect s).btDevice := by
  have hadd1 : addLog s.maxBufferSize s.logs LogType.info [] (closedText s.commMode)
      = s.logs ++ [closedEntry s.commMode] := by
    apply addLog_eq_append <;> simp <;> omega
  have hsz1 : calculateBufferSize (s.logs ++ [closedEntry s.commMode])
      = calculateBufferSize s.logs := by
    rw [calculateBufferSize_append]
    simp [calculateBufferSize, closedEntry, mkLogEntry]
  have hadd2 : addLog s.maxBufferSize (s.logs ++ [closedEntry s.commMode]) LogType.info []
      (closedText s.commMode)
      = s.logs ++ [closedEntry s.commMode, closedEntry s.commMode] := by
    rw [addLog_eq_append]
    · simp [closedEntry]
    · simp; omega
    · rw [hsz1]; simp; omega
  cases hm : s.commMode <;>
    simp_all [disconnect, closedEntry, hm]

theorem disconnect_double_amended_witness :
    initialState.logs.length + 2 ≤ 1000 ∧
    calculateBufferSize initialState.logs ≤ initialState.maxBufferSize ∧
    ((disconnect initialState).isConnected = false ∧
      (disconnect initialState).isPaused = false ∧
      (disconnect initialState).logs = initialState.logs ++ [closedEntry initialState.commMode] ∧
      (disconnect (disconnect initialState)).logs
        = initialState.logs ++ [closedEntry initialState.commMode, closedEntry initialState.commMode] ∧
      (disconnect (disconnect initialState)).isConnected = (disconnect initialState).isConnected ∧
      (disconnect (disconnect initialState)).isPaused = (disconnect initialState).isPaused ∧
      (disconnect (disconnect initialState)).port = (disconnect initialState).port ∧
      (disconnect (disconnect initialState)).ws = (disconnect initialState).ws ∧
      (disconnect (disconnect initialState)).reconnectTimer = (disconnect initialState).reconnectTimer ∧
      (disconnect (disconnect initialState)).shouldReconnect = (disconnect initialState).shouldReconnect ∧
      (disconnect (disconnect initialState)).btDevice = (disconnect initialState).btDevice) :=
  ⟨by decide, by decide, disconnect_double_amended initialState (by decide) (by decide)⟩

/-- Outcome of the serial connect attempt (part_001 lines 427-450).  The
`requestPort`/`open` promise either resolves, is rejected because the user
dismissed the device picker, or is rejected by an open error.  In the
source all rejections land in the same `catch` block. -/
inductive ConnectOutcome where
  | granted
  | userCancelled (msg : String)
  | openFailed (msg : String)
deriving DecidableEq, Repr

/-- The serial branch of `connect` (part_001 lines 427-450): on success it
stores the port, marks the session connected and logs an info entry; every
rejection — including user cancellation of the picker — reaches the
catch-all and logs `连接失败: <message>` as an `error` entry. -/
def connectSerial (s : AppState) (outcome : ConnectOutcome) : AppState :=
  match outcome with
  | ConnectOutcome.granted =>
    { s with
      port := some ()
      isConnected := true
      keepReading := true
      logs := addLog s.maxBufferSize s.logs LogType.info []
        ("已连接: " ++ toString s.baudRate ++ " bps") }
  | ConnectOutcome.userCancelled msg =>
    { s with logs := addLog s.maxBufferSize s.logs LogType.error [] ("连接失败: " ++ msg) }
  | ConnectOutcome.openFailed msg =>
    { s with logs := addLog s.maxBufferSize s.logs LogType.error [] ("连接失败: " ++ msg) }

def countErrors (l : List LogEntry) : Nat :=
  (l.filter fun e => e.type == LogType.error).length

/-- Counterexample to claim C4 as stated: dismissing the device picker
rejects the connect promise, which the catch-all logs as an `error` entry
— one error entry is produced, not zero. -/
theorem connect_cancel_logs_error_counterexample :
    countErrors ((connectSerial initialState
      (ConnectOutcome.userCancelled "NotFoundError: No port selected by the user.")).logs) = 1 := by
  rfl

/-- Claim C4, amended: user cancellation of the device picker is treated
like every other connect failure — the catch-all appends exactly one
`error` entry (`连接失败: <message>`) and leaves the connection state
unchanged; the code does not special-case cancellation. -/
theorem connect_cancel_error_logged (s : AppState) (msg : String)
    (h1 : s.logs.length + 1 ≤ 1000)
    (h2 : calculateBufferSize s.logs ≤ s.maxBufferSize) :
    (connectSerial s (ConnectOutcome.userCancelled msg)).logs
      = s.logs ++ [mkLogEntry LogType.error [] ("连接失败: " ++ msg)] ∧
    countErrors ((connectSerial s (ConnectOutcome.userCancelled msg)).logs)
      = countErrors s.logs + 1 ∧
    (connectSerial s (ConnectOutcome.userCancelled msg)).isConnected = s.isConnected ∧
    (connectSerial s (ConnectOutcome.userCancelled msg)).port = s.port := by
  have hadd : addLog s.maxBufferSize s.logs LogType.error [] ("连接失败: " ++ msg)
      = s.logs ++ [mkLogEntry LogType.error [] ("连接失败: " ++ msg)] := by
    apply addLog_eq_append <;> simp <;> omega
  refine ⟨by simp [connectSerial, hadd], ?_, rfl, rfl⟩
  simp [connectSerial, hadd, countErrors, mkLogEntry]

theorem connect_cancel_error_logged_witness :
    initialState.logs.length + 1 ≤ 1000 ∧
    calculateBufferSize initialState.logs ≤ initialState.maxBufferSize ∧
    ((connectSerial initialState (ConnectOutcome.userCancelled "NotFoundError")).logs
      = initialState.logs ++ [mkLogEntry LogType.error [] ("连接失败: " ++ "NotFoundError")] ∧
    countErrors ((connectSerial initialState (ConnectOutcome.userCancelled "NotFoundError")).logs)
      = countErrors initialState.logs + 1 ∧
    (connectSerial initialState (ConnectOutcome.userCancelled "NotFoundError")).isConnected
      = initialState.isConnected ∧
    (connectSerial initialState (ConnectOutcome.userCancelled "NotFoundError")).port
      = initialState.port) :=
  ⟨by decide, by decide, connect_cancel_error_logged initialState "NotFoundError" (by decide) (by decide)⟩

/-- State read and written by the WebSocket reconnect supervisor
(part_001 lines 79-82): `shouldReconnectRef`, `reconnectTimerRef` (the
pending one-shot timer, with its delay), the connection flag, the
`isReconnecting` flag, and a counter of reconnect attempts that have
fired (each firing invokes `connect()` once). -/
structure WsSupervisor where
  connected : Bool
  paused : Bool
  shouldReconnect : Bool
  pendingTimer : Option Nat
  isReconnecting : Bool
  attempts : Nat
deriving DecidableEq, Repr

/-- The `ws.onclose` handler (part_001 lines 403-419): clear the connection
and pause flags; if `shouldReconnectRef.current` is set, enter the
reconnecting state and schedule one reconnect via `setTimeout(connect,
1000)`; otherwise leave the reconnecting state and schedule nothing. -/
def wsHandleClose (s : WsSupervisor) : WsSupervisor :=
  let s1 := { s with connected := false, paused := false }
  if s1.shouldReconnect then
    { s1 with isReconnecting := true, pendingTimer := some 1000 }
  else
    { s1 with isReconnecting := false }

/-- The WebSocket branch of `disconnect` (part_001 lines 260-274), restricted
to the supervisor fields: forbid auto-reconnect, clear the reconnecting
flag, cancel any pending timer (`clearTimeout`), close the socket. -/
def wsUserDisconnect (s : WsSupervisor) : WsSupervisor :=
  { s with
    shouldReconnect := false
    isReconnecting := false
    pendingTimer := none
    connected := false
    paused := false }

/-- Expiry of the scheduled delay.  A pending `setTimeout` is one-shot: if a
timer is pending its callback runs `connect()` once (one reconnect attempt)
and the handle is consumed; with no pending timer nothing fires. -/
def wsTimerFire (s : WsSupervisor) : WsSupervisor :=
  match s.pendingTimer with
  | none => s
  | some _ => { s with pendingTimer := none, attempts := s.attempts + 1 }

/-- Claim C9: an unexpected closure with `shouldReconnect = true` schedules
exactly one reconnect attempt with the fixed 1000 ms delay (firing it once
increments the attempt count, and the timer is consumed so a second expiry
fires nothing); a user disconnect clears the flag and cancels any pending
timer, after which the delay elapsing fires zero attempts. -/
theorem reconnect_supervisor_correct (s : WsSupervisor) (h : s.shouldReconnect = true) :
    (wsHandleClose s).pendingTimer = some 1000 ∧
    (wsHandleClose s).isReconnecting = true ∧
    (wsTimerFire (wsHandleClose s)).attempts = s.attempts + 1 ∧
    (wsTimerFire (wsHandleClose s)).pendingTimer = none ∧
    wsTimerFire (wsTimerFire (wsHandleClose s)) = wsTimerFire (wsHandleClose s) ∧
    (∀ t : WsSupervisor, (wsUserDisconnect t).shouldReconnect = false ∧
      (wsUserDisconnect t).pendingTimer = none ∧
      wsTimerFire (wsUserDisconnect t) = wsUserDisconnect t ∧
      (wsTimerFire (wsUserDisconnect t)).attempts = t.attempts) := by
  refine ⟨?_, ?_, ?_, ?_, ?_, ?_⟩
  · simp [wsHandleClose, h]
  · simp [wsHandleClose, h]
  · simp [wsHandleClose, h, wsTimerFire]
  · simp [wsHandleClose, h, wsTimerFire]
  · simp [wsHandleClose, h, wsTimerFire]
  · intro t
    refine ⟨rfl, rfl, ?_, ?_⟩ <;> simp [wsUserDisconnect, wsTimerFire]

/-- A concrete connected WebSocket session used by the C9 witness. -/
def wsSample : WsSupervisor :=
  { connected := true, paused := false, shouldReconnect := true,
    pendingTimer := none, isReconnecting := false, attempts := 0 }

theorem reconnect_supervisor_correct_witness :
    wsSample.shouldReconnect = true ∧
    (wsHandleClose wsSample).pendingTimer = some 1000 ∧
    (wsTimerFire (wsHandleClose wsSample)).attempts = wsSample.attempts + 1 :=
  ⟨rfl,
    (reconnect_supervisor_correct wsSample rfl).1,
    (reconnect_supervisor_correct wsSample rfl).2.2.1⟩

/-- `DisplayMode` from `src/types.ts` (text vs hex), recorded per queued
send item. -/
inductive DisplayMode where
  | text
  | hex
deriving DecidableEq, Repr

/-- A queued outbound item (`sendQueueRef` element, part_001 line 124):
`{data, text, mode}`. -/
structure SendItem where
  data : List Nat
  text : String
  mode : DisplayMode
deriving DecidableEq, Repr

/-- Shared state of `sendData`/`processSendQueue` (part_001 lines 124-125,
679-723): the queue, the `isSendingRef` re-entrancy guard, the sequence of
items written to the transport so far (in write order), and the number of
drain-loop invocations currently executing past the guard. -/
structure QueueState where
  queue : List SendItem
  isSending : Bool
  written : List SendItem
  activeLoops : Nat
deriving DecidableEq, Repr

def initQueue : QueueState :=
  { queue := [], isSending := false, written := [], activeLoops := 0 }

/-- Interleaved session events: an `enqueue` is a `sendData` call (push the
item, then call `processSendQueue`, whose guard returns at once if a drain
is active); a `drainStep` is one step of a running drain loop — either one
`shift`-and-write iteration, or the loop-exit that clears `isSendingRef`
when the queue is empty.  Writes are suspension points, so enqueues may
interleave between steps. -/
inductive QueueEvent where
  | enqueue (it : SendItem)
  | drainStep
deriving DecidableEq, Repr

def queueStep (s : QueueState) (e : QueueEvent) : QueueState :=
  match e with
  | QueueEvent.enqueue it =>
    let s1 := { s with queue := s.queue ++ [it] }
    if s1.isSending || s1.queue.isEmpty then s1
    else { s1 with isSending := true, activeLoops := s1.activeLoops + 1 }
  | QueueEvent.drainStep =>
    if s.activeLoops = 0 then s
    else
      match s.queue with
      | it :: rest => { s with queue := rest, written := s.written ++ [it] }
      | [] => { s with isSending := false, activeLoops := s.activeLoops - 1 }

def runQueue (evs : List QueueEvent) : QueueState :=
  evs.foldl queueStep initQueue

/-- The items enqueued over a run, in insertion order. -/
def enqueuedOf : List QueueEvent → List SendItem
  | [] => []
  | QueueEvent.enqueue it :: l => it :: enqueuedOf l
  | QueueEvent.drainStep :: l => enqueuedOf l

def QueueInv (s : QueueState) : Prop :=
  s.activeLoops ≤ 1 ∧ (s.isSending = true ↔ s.activeLoops = 1)

theorem queueStep_inv (s : QueueState) (e : QueueEvent) (h : QueueInv s) :
    QueueInv (queueStep s e) := by
  obtain ⟨h1, h2⟩ := h
  cases e with
  | enqueue it =>
    simp only [queueStep]
    split
    · exact ⟨h1, h2⟩
    · rename_i hguard
      simp only [Bool.or_eq_true, not_or, Bool.not_eq_true] at hguard
      have hs : s.isSending = false := hguard.1
      have hz : s.activeLoops = 0 := by
        rcases Nat.lt_or_ge s.activeLoops 1 with hlt | hge
        · omega
        · exfalso
          have hone : s.activeLoops = 1 := by omega
          have := h2.mpr hone
          rw [hs] at this
          exact Bool.false_ne_true this
      constructor
      · simp [QueueState.activeLoops]; omega
      · simp [hz]
  | drainStep =>
    simp only [queueStep]
    split
    · exact ⟨h1, h2⟩
    · rename_i hz
      match hq : s.queue with
      | it :: rest => exact ⟨h1, h2⟩
      | [] =>
        refine ⟨?_, ?_⟩ <;> simp <;> omega

theorem runQueue_inv (evs : List QueueEvent) : QueueInv (runQueue evs) := by
  have h : ∀ (l : List QueueEvent) (s : QueueState), QueueInv s → QueueInv (l.foldl queueStep s) := by
    intro l
    induction l with
    | nil => intro s hs; exact hs
    | cons e l ih => intro s hs; exact ih _ (queueStep_inv s e hs)
  exact h evs initQueue ⟨by decide, by decide⟩

theorem queueStep_order (s : QueueState) (e : QueueEvent) :
    (queueStep s e).written ++ (queueStep s e).queue
      = s.written ++ s.queue ++ enqueuedOf [e] := by
  cases e with
  | enqueue it =>
    simp only [queueStep, enqueuedOf]
    split <;> simp
  | drainStep =>
    simp only [queueStep, enqueuedOf]
    split
    · simp
    · cases hq : s.queue with
      | nil => simp [hq]
      | cons it rest => simp [hq]

theorem runQueue_order (evs : List QueueEvent) :
    (runQueue evs).written ++ (runQueue evs).queue = enqueuedOf evs := by
  have h : ∀ (l : List QueueEvent) (s : QueueState),
      (l.foldl queueStep s).written ++ (l.foldl queueStep s).queue
        = s.written ++ s.queue ++ enqueuedOf l := by
    intro l
    induction l with
    | nil => intro s; simp [enqueuedOf]
    | cons e l ih =>
      intro s
      rw [List.foldl_cons, ih, queueStep_order]
      have : enqueuedOf (e :: l) = enqueuedOf [e] ++ enqueuedOf l := by
        cases e <;> simp [enqueuedOf]
      rw [this, List.append_assoc]
  simpa [runQueue, initQueue] using h evs initQueue

/-- Claim C8: over every interleaving of enqueues and drain steps, (1) at
most one drain loop is ever active (the `isSendingRef` guard), (2) write
order is exactly insertion order — the items already written followed by
the items still queued equal the enqueued sequence, with no reordering or
coalescing — and (3) a drain loop exits only when the queue is empty, at
which point every item enqueued so far (including any enqueued while it
ran) has been written. -/
theorem sendQueue_fifo_single_drain (evs : List QueueEvent) :
    (runQueue evs).activeLoops ≤ 1 ∧
    (runQueue evs).written ++ (runQueue evs).queue = enqueuedOf evs ∧
    ((runQueue (evs ++ [QueueEvent.drainStep])).activeLoops < (runQueue evs).activeLoops →
      (runQueue evs).queue = [] ∧ (runQueue evs).written = enqueuedOf evs) := by
  refine ⟨(runQueue_inv evs).1, runQueue_order evs, ?_⟩
  intro hdec
  have hstep : runQueue (evs ++ [QueueEvent.drainStep])
      = queueStep (runQueue evs) QueueEvent.drainStep := by
    simp [runQueue, List.foldl_append]
  rw [hstep] at hdec
  have hq : (runQueue evs).queue = [] := by
    by_contra hne
    match hqq : (runQueue evs).queue with
    | [] => exact hne hqq
    | it :: rest =>
      simp only [queueStep, hqq] at hdec
      split at hdec <;> simp_all
  refine ⟨hq, ?_⟩
  have := runQueue_order evs
  rw [hq, List.append_nil] at this
  exact this

theorem sendQueue_fifo_single_drain_witness :
    (runQueue [QueueEvent.enqueue ⟨[1], "a", DisplayMode.text⟩,
        QueueEvent.enqueue ⟨[2], "b", DisplayMode.hex⟩,
        QueueEvent.drainStep, QueueEvent.drainStep, QueueEvent.drainStep]).activeLoops ≤ 1 ∧
    (runQueue [QueueEvent.enqueue ⟨[1], "a", DisplayMode.text⟩,
        QueueEvent.enqueue ⟨[2], "b", DisplayMode.hex⟩,
        QueueEvent.drainStep, QueueEvent.drainStep, QueueEvent.drainStep]).written ++
      (runQueue [QueueEvent.enqueue ⟨[1], "a", DisplayMode.text⟩,
        QueueEvent.enqueue ⟨[2], "b", DisplayMode.hex⟩,
        QueueEvent.drainStep, QueueEvent.drainStep, QueueEvent.drainStep]).queue
      = enqueuedOf [QueueEvent.enqueue ⟨[1], "a", DisplayMode.text⟩,
        QueueEvent.enqueue ⟨[2], "b", DisplayMode.hex⟩,
        QueueEvent.drainStep, QueueEvent.drainStep, QueueEvent.drainStep] ∧
    ((runQueue ([QueueEvent.enqueue ⟨[1], "a", DisplayMode.text⟩,
        QueueEvent.enqueue ⟨[2], "b", DisplayMode.hex⟩,
        QueueEvent.drainStep, QueueEvent.drainStep, QueueEvent.drainStep]
          ++ [QueueEvent.drainStep])).activeLoops
        < (runQueue [QueueEvent.enqueue ⟨[1], "a", DisplayMode.text⟩,
        QueueEvent.enqueue ⟨[2], "b", DisplayMode.hex⟩,
        QueueEvent.drainStep, QueueEvent.drainStep, QueueEvent.drainStep]).activeLoops →
      (runQueue [QueueEvent.enqueue ⟨[1], "a", DisplayMode.text⟩,
        QueueEvent.enqueue ⟨[2], "b", DisplayMode.hex⟩,
        QueueEvent.drainStep, QueueEvent.drainStep, QueueEvent.drainStep]).queue = [] ∧
      (runQueue [QueueEvent.enqueue ⟨[1], "a", DisplayMode.text⟩,
        QueueEvent.enqueue ⟨[2], "b", DisplayMode.hex⟩,
        QueueEvent.drainStep, QueueEvent.drainStep, QueueEvent.drainStep]).written
        = enqueuedOf [QueueEvent.enqueue ⟨[1], "a", DisplayMode.text⟩,
        QueueEvent.enqueue ⟨[2], "b", DisplayMode.hex⟩,
        QueueEvent.drainStep, QueueEvent.drainStep, QueueEvent.drainStep]) :=
  sendQueue_fifo_single_drain _

/-- Observable events of one `handleFileSend` invocation (serial branch,
part_001 lines 634-675): chunk writes to the port writer, progress
callbacks, inter-chunk pacing delays, and log entries. -/
inductive TransferEvent where
  | write (chunk : List Nat)
  | progress (p : Nat)
  | delay (ms : Nat)
  | logInfo (msg : String)
  | logError (msg : String)
  | logTx (data : List Nat) (text : String)
deriving DecidableEq, Repr

/-- `Math.round(num/den)` for non-negative arguments: `⌊num/den + 1/2⌋ =
⌊(2*num + den) / (2*den)⌋`.  (JavaScript evaluates `sent/total*100` in
binary floating point; we model the exact rational value, which is the
formula both the code and the spec state.) -/
def jsRound (num den : Nat) : Nat :=
  (2 * num + den) / (2 * den)

/-- The chunk loop of the serial branch (part_001 lines 649-665):
`while (sent < total) { if (isPaused) {log error; break};
chunk = data.slice(sent, sent + throttleBytes); await writer.write(chunk);
sent += chunk.length; onProgress(round(sent/total*100));
if (throttleMs > 0 && sent < total) await delay(throttleMs) }`.
`pausedClosure` is the value of the state variable `isPaused` captured by
this invocation's closure — it is constant for the whole invocation (the
loop does not read `isPausedRef.current`).  `fuel` bounds the number of
iterations executed; returns the event trace and the final `sent`. -/
def fileSendChunkLoop (pausedClosure : Bool) (tb tm : Nat) (data : List Nat) :
    Nat → Nat → List TransferEvent × Nat
  | 0, sent => ([], sent)
  | fuel + 1, sent =>
    if sent < data.length then
      if pausedClosure then
        ([TransferEvent.logError "文件发送中断: 已暂停"], sent)
      else
        let chunk := (data.drop sent).take tb
        let sent2 := sent + chunk.length
        let tail := fileSendChunkLoop pausedClosure tb tm data fuel sent2
        (TransferEvent.write chunk ::
          TransferEvent.progress (jsRound (100 * sent2) data.length) ::
            ((if 0 < tm ∧ sent2 < data.length then [TransferEvent.delay tm] else []) ++ tail.1),
          tail.2)
    else ([], sent)

/-- The serial branch of `handleFileSend` (part_001 lines 634-675).
`livePaused i` is the actual pause state of the session when iteration `i`
of the loop runs; the source reads the closure-captured `isPaused`
(constant, equal to the value at call time, `livePaused 0`) at every
check, so `livePaused` is never consulted after the call begins.  The
model assumes an open writable port and error-free writes. -/
def handleFileSendSerial (livePaused : Nat → Bool) (fileName : String)
    (data : List Nat) (tb tm fuel : Nat) : List TransferEvent × Nat :=
  let pausedClosure := livePaused 0
  if pausedClosure then
    ([TransferEvent.logError "文件发送失败: 已暂停"], 0)
  else
    let total := data.length
    let header := [TransferEvent.logTx data ("文件: " ++ fileName ++ " (" ++ toString total ++ " 字节)"),
      TransferEvent.logInfo ("开始发送文件: " ++ fileName ++ " (" ++ toString total ++ " 字节)")]
    let r := fileSendChunkLoop pausedClosure tb tm data fuel 0
    (header ++ r.1 ++ (if pausedClosure then [] else [TransferEvent.logInfo "文件发送完毕"]), r.2)

def writesOf (tr : List TransferEvent) : List (List Nat) :=
  tr.filterMap fun e =>
    match e with
    | TransferEvent.write c => some c
    | _ => none

def progressOf (tr : List TransferEvent) : List Nat :=
  tr.filterMap fun e =>
    match e with
    | TransferEvent.progress p => some p
    | _ => none

def isWriteEvent : TransferEvent → Bool
  | TransferEvent.write _ => true
  | _ => false

/-- Holds when every pacing delay in the trace is followed by a later
write: no delay is inserted after the last chunk. -/
def delaysFollowedByWrite : List TransferEvent → Bool
  | [] => true
  | TransferEvent.delay _ :: rest => rest.any isWriteEvent && delaysFollowedByWrite rest
  | _ :: rest => delaysFollowedByWrite rest

/-- Partition of a byte list into successive chunks of `tb` bytes (the last
chunk holds the remainder): the sequence of `data.slice(sent, sent+tb)`
values the loop sends, each of length `min tb remaining`. -/
def chunkList (tb : Nat) : List Nat → List (List Nat)
  | [] => []
  | x :: xs => (x :: xs).take tb :: chunkList tb (xs.drop (tb - 1))
termination_by l => l.length
decreasing_by
  simp only [List.length_drop, List.length_cons]
  omega

/-- Cumulative values of the `sent` cursor after each chunk. -/
def cumulativeSent (sent : Nat) : List (List Nat) → List Nat
  | [] => []
  | c :: cs => (sent + c.length) :: cumulativeSent (sent + c.length) cs

/-- Modelled from the spec: the transfer trace the spec describes — for
each chunk in order, a write, then a progress report of
`round(sent/total*100)`, then (only between chunks) the pacing delay. -/
def specTransferTrace (tm total : Nat) : Nat → List (List Nat) → List TransferEvent
  | _, [] => []
  | sent, c :: cs =>
    TransferEvent.write c ::
      TransferEvent.progress (jsRound (100 * (sent + c.length)) total) ::
        ((if 0 < tm ∧ sent + c.length < total then [TransferEvent.delay tm] else []) ++
          specTransferTrace tm total (sent + c.length) cs)

theorem jsRound_self (t : Nat) (ht : 0 < t) : jsRound (100 * t) t = 100 := by
  have h1 : 2 * (100 * t) + t = t + 100 * (2 * t) := by ring
  rw [jsRound, h1, Nat.add_mul_div_right _ _ (by omega : 0 < 2 * t),
    Nat.div_eq_of_lt (by omega)]

theorem chunkList_cons_pos (tb : Nat) (htb : 0 < tb) (l : List Nat) (hne : l ≠ []) :
    chunkList tb l = l.take tb :: chunkList tb (l.drop tb) := by
  match l with
  | [] => exact absurd rfl hne
  | x :: xs =>
    cases tb with
    | zero => omega
    | succ k =>
      rw [chunkList]
      simp [List.drop_succ_cons]

theorem chunkList_length (tb : Nat) (htb : 0 < tb) (l : List Nat) :
    (chunkList tb l).length = (l.length + tb - 1) / tb := by
  have H : ∀ (n : Nat) (l : List Nat), l.length ≤ n →
      (chunkList tb l).length = (l.length + tb - 1) / tb := by
    intro n
    induction n with
    | zero =>
      intro l hl
      have hnil : l = [] := List.eq_nil_of_length_eq_zero (by omega)
      subst hnil
      simp [chunkList, Nat.div_eq_of_lt (by omega : tb - 1 < tb)]
    | succ n ih =>
      intro l hl
      match l with
      | [] => simp [chunkList, Nat.div_eq_of_lt (by omega : tb - 1 < tb)]
      | x :: xs =>
        have hl2 : xs.length + 1 ≤ n + 1 := by simpa using hl
        rw [chunkList_cons_pos tb htb _ (by simp), List.length_cons,
          ih ((x :: xs).drop tb) (by simp only [List.length_drop, List.length_cons]; omega)]
        simp only [List.length_drop, List.length_cons]
        rcases Nat.lt_or_ge xs.length tb with hc | hc
        · have h1 : xs.length + 1 - tb + tb - 1 = tb - 1 := by omega
          have h2 : xs.length + 1 + tb - 1 = xs.length + 1 * tb := by omega
          rw [h1, h2, Nat.div_eq_of_lt (by omega), Nat.add_mul_div_right _ _ htb,
            Nat.div_eq_of_lt (by omega)]
        · have h1 : xs.length + 1 - tb + tb - 1 = xs.length := by omega
          have h2 : xs.length + 1 + tb - 1 = xs.length + 1 * tb := by omega
          rw [h1, h2, Nat.add_mul_div_right _ _ htb]
  exact H l.length l (Nat.le_refl _)

theorem chunkList_flatten (tb : Nat) (htb : 0 < tb) (l : List Nat) :
    (chunkList tb l).flatten = l := by
  have H : ∀ (n : Nat) (l : List Nat), l.length ≤ n → (chunkList tb l).flatten = l := by
    intro n
    induction n with
    | zero =>
      intro l hl
      have hnil : l = [] := List.eq_nil_of_length_eq_zero (by omega)
      subst hnil
      simp [chunkList]
    | succ n ih =>
      intro l hl
      match l with
      | [] => simp [chunkList]
      | x :: xs =>
        have hl2 : xs.length + 1 ≤ n + 1 := by simpa using hl
        rw [chunkList_cons_pos tb htb _ (by simp), List.flatten_cons,
          ih ((x :: xs).drop tb) (by simp only [List.length_drop, List.length_cons]; omega),
          List.take_append_drop]
  exact H l.length l (Nat.le_refl _)

theorem chunkList_length_sum (tb : Nat) (htb : 0 < tb) (l : List Nat) :
    ((chunkList tb l).map List.length).sum = l.length := by
  have := congrArg List.length (chunkList_flatten tb htb l)
  simpa [List.length_flatten] using this

/-- The chunk loop with an unpaused closure runs the transfer the spec
describes: its trace is the spec trace over the chunk partition of the
unsent data, and the final cursor is the full length. -/
theorem fileSendChunkLoop_eq_spec (tb tm : Nat) (data : List Nat) (htb : 0 < tb) :
    ∀ (fuel sent : Nat), data.length ≤ sent + fuel * tb →
      fileSendChunkLoop false tb tm data fuel sent
        = (specTransferTrace tm data.length sent (chunkList tb (data.drop sent)),
            max sent data.length) := by
  intro fuel
  induction fuel with
  | zero =>
    intro sent hs
    simp only [Nat.zero_mul, Nat.add_zero] at hs
    have hdrop : data.drop sent = [] := List.drop_eq_nil_of_le hs
    simp [fileSendChunkLoop, hdrop, chunkList, specTransferTrace, Nat.max_eq_left hs]
  | succ fuel ih =>
    intro sent hs
    by_cases hlt : sent < data.length
    · have hne : data.drop sent ≠ [] := by
        intro h0
        have := congrArg List.length h0
        simp [List.length_drop] at this
        omega
      have hclen : ((data.drop sent).take tb).length = min tb (data.length - sent) := by
        simp [List.length_take, List.length_drop]
      have hminle : min tb (data.length - sent) ≤ data.length - sent :=
        Nat.min_le_right _ _
      have hmin : min tb (data.length - sent) = tb ∨
          min tb (data.length - sent) = data.length - sent := min_choice _ _
      have hexp : (fuel + 1) * tb = fuel * tb + tb := by ring
      have hsent2le : sent + ((data.drop sent).take tb).length ≤ data.length := by
        rw [hclen]; omega
      have hdd : (data.drop sent).drop tb = data.drop (sent + ((data.drop sent).take tb).length) := by
        rw [List.drop_drop]
        rcases Nat.lt_or_ge data.length (sent + tb) with hc | hc
        · rw [List.drop_eq_nil_of_le (by omega),
            List.drop_eq_nil_of_le (by rw [hclen]; omega)]
        · have h4 : ((data.drop sent).take tb).length = tb := by rw [hclen]; omega
          rw [h4]
      have hfuel2 : data.length ≤ sent + ((data.drop sent).take tb).length + fuel * tb := by
        rw [hclen]
        rw [hexp] at hs
        omega
      have hrec := ih (sent + ((data.drop sent).take tb).length) hfuel2
      have hmax1 : (sent + ((data.drop sent).take tb).length) ⊔ data.length = data.length :=
        Nat.max_eq_right hsent2le
      have hmax2 : sent ⊔ data.length = data.length :=
        Nat.max_eq_right (Nat.le_of_lt hlt)
      rw [fileSendChunkLoop]
      simp only [if_pos hlt, Bool.false_eq_true, if_false]
      rw [hrec, chunkList_cons_pos tb htb _ hne, specTransferTrace]
      rw [hdd, hmax1, hmax2]
    · have hge : data.length ≤ sent := by omega
      have hdrop : data.drop sent = [] := List.drop_eq_nil_of_le hge
      rw [fileSendChunkLoop]
      simp [if_neg hlt, hdrop, chunkList, specTransferTrace, Nat.max_eq_left hge]

theorem writesOf_specTransferTrace (tm total : Nat) :
    ∀ (sent : Nat) (cs : List (List Nat)),
      writesOf (specTransferTrace tm total sent cs) = cs := by
  intro sent cs
  induction cs generalizing sent with
  | nil => simp [specTransferTrace, writesOf]
  | cons c cs ih =>
    have hrec := ih (sent + c.length)
    by_cases h : 0 < tm ∧ sent + c.length < total <;>
      · simp only [specTransferTrace, h, if_true, if_false, writesOf,
          List.filterMap_cons, List.filterMap_append] at hrec ⊢
        simp [hrec]

theorem progressOf_specTransferTrace (tm total : Nat) :
    ∀ (sent : Nat) (cs : List (List Nat)),
      progressOf (specTransferTrace tm total sent cs)
        = (cumulativeSent sent cs).map fun s => jsRound (100 * s) total := by
  intro sent cs
  induction cs generalizing sent with
  | nil => simp [specTransferTrace, progressOf, cumulativeSent]
  | cons c cs ih =>
    have hrec := ih (sent + c.length)
    by_cases h : 0 < tm ∧ sent + c.length < total <;>
      · simp only [specTransferTrace, h, if_true, if_false, progressOf, cumulativeSent,
          List.filterMap_cons, List.filterMap_append, List.map_cons] at hrec ⊢
        simp [hrec]

theorem cumulativeSent_getLast (sent : Nat) (cs : List (List Nat)) (hne : cs ≠ []) :
    (cumulativeSent sent cs).getLast? = some (sent + (cs.map List.length).sum) := by
  induction cs generalizing sent with
  | nil => exact absurd rfl hne
  | cons c cs ih =>
    cases cs with
    | nil => simp [cumulativeSent]
    | cons c2 cs2 =>
      rw [cumulativeSent]
      have h2 : cumulativeSent (sent + c.length) (c2 :: cs2)
          = (sent + c.length + c2.length) :: cumulativeSent (sent + c.length + c2.length) cs2 := rfl
      rw [h2, List.getLast?_cons_cons, ← h2, ih (sent + c.length) (by simp)]
      simp
      omega

theorem specTransferTrace_any_write (tm total sent : Nat) (cs : List (List Nat))
    (hne : cs ≠ []) :
    (specTransferTrace tm total sent cs).any isWriteEvent = true := by
  cases cs with
  | nil => exact absurd rfl hne
  | cons c cs => simp [specTransferTrace, isWriteEvent]

theorem delaysFollowedByWrite_append (t1 t2 : List TransferEvent)
    (h1 : delaysFollowedByWrite t1 = true) (h2 : delaysFollowedByWrite t2 = true) :
    delaysFollowedByWrite (t1 ++ t2) = true := by
  induction t1 with
  | nil => simpa
  | cons e t ih =>
    cases e <;> simp_all [delaysFollowedByWrite, List.any_append]

theorem delaysFollowedByWrite_specTransferTrace (tm total : Nat) :
    ∀ (sent : Nat) (cs : List (List Nat)),
      sent + (cs.map List.length).sum = total →
      delaysFollowedByWrite (specTransferTrace tm total sent cs) = true := by
  intro sent cs
  induction cs generalizing sent with
  | nil => intro _; simp [specTransferTrace, delaysFollowedByWrite]
  | cons c cs ih =>
    intro hsum
    simp only [List.map_cons, List.sum_cons] at hsum
    have hrest : delaysFollowedByWrite (specTransferTrace tm total (sent + c.length) cs) = true :=
      ih (sent + c.length) (by omega)
    by_cases h : 0 < tm ∧ sent + c.length < total
    · have hcsne : cs ≠ [] := by
        intro h0
        subst h0
        simp at hsum
        omega
      simp [specTransferTrace, delaysFollowedByWrite, h,
        specTransferTrace_any_write tm total _ cs hcsne, hrest]
    · simp [specTransferTrace, delaysFollowedByWrite, h, hrest]

/-- Claim C7: an uninterrupted (never-paused; writes modelled error-free)
transfer of a non-empty payload with positive chunk size issues exactly
`⌈total/chunkSize⌉` writes, whose chunks are the successive
`min(chunkSize, remaining)`-byte slices partitioning the payload; after
every chunk the progress `round(sent/total*100)` is reported over the
cumulative sent cursor; the final report is 100; every pacing delay is
followed by a later write (never inserted after the last chunk); and the
final sent cursor equals the payload size. -/
theorem fileSend_unpaused_transfer_correct (livePaused : Nat → Bool) (fileName : String)
    (data : List Nat) (tb tm fuel : Nat)
    (hp : ∀ i, livePaused i = false)
    (hd : 0 < data.length) (htb : 0 < tb) (hfuel : data.length ≤ fuel * tb) :
    writesOf (handleFileSendSerial livePaused fileName data tb tm fuel).1 = chunkList tb data ∧
    (writesOf (handleFileSendSerial livePaused fileName data tb tm fuel).1).length
      = (data.length + tb - 1) / tb ∧
    (writesOf (handleFileSendSerial livePaused fileName data tb tm fuel).1).flatten = data ∧
    progressOf (handleFileSendSerial livePaused fileName data tb tm fuel).1
      = (cumulativeSent 0 (chunkList tb data)).map (fun s => jsRound (100 * s) data.length) ∧
    (progressOf (handleFileSendSerial livePaused fileName data tb tm fuel).1).getLast?
      = some 100 ∧
    delaysFollowedByWrite (handleFileSendSerial livePaused fileName data tb tm fuel).1 = true ∧
    (handleFileSendSerial livePaused fileName data tb tm fuel).2 = data.length := by
  have h0 : data.length ≤ 0 + fuel * tb := by omega
  have hloop := fileSendChunkLoop_eq_spec tb tm data htb fuel 0 h0
  rw [List.drop_zero] at hloop
  have hmax : (0 : Nat) ⊔ data.length = data.length := Nat.max_eq_right (Nat.zero_le _)
  rw [hmax] at hloop
  have hfs : handleFileSendSerial livePaused fileName data tb tm fuel
      = ([TransferEvent.logTx data ("文件: " ++ fileName ++ " (" ++ toString data.length ++ " 字节)"),
          TransferEvent.logInfo ("开始发送文件: " ++ fileName ++ " (" ++ toString data.length ++ " 字节)")]
          ++ specTransferTrace tm data.length 0 (chunkList tb data)
          ++ [TransferEvent.logInfo "文件发送完毕"], data.length) := by
    simp only [handleFileSendSerial, hp 0, Bool.false_eq_true, if_false, hloop]
  have hchne : chunkList tb data ≠ [] := by
    intro hno
    have hfl := chunkList_flatten tb htb data
    rw [hno] at hfl
    simp only [List.flatten_nil] at hfl
    rw [← hfl] at hd
    simp at hd
  have hsum : ((chunkList tb data).map List.length).sum = data.length :=
    chunkList_length_sum tb htb data
  have hw : writesOf (handleFileSendSerial livePaused fileName data tb tm fuel).1
      = chunkList tb data := by
    rw [hfs]
    simp [writesOf, List.filterMap_append]
    simpa [writesOf] using writesOf_specTransferTrace tm data.length 0 (chunkList tb data)
  have hprog : progressOf (handleFileSendSerial livePaused fileName data tb tm fuel).1
      = (cumulativeSent 0 (chunkList tb data)).map fun s => jsRound (100 * s) data.length := by
    rw [hfs]
    simp [progressOf, List.filterMap_append]
    simpa [progressOf] using progressOf_specTransferTrace tm data.length 0 (chunkList tb data)
  refine ⟨hw, ?_, ?_, hprog, ?_, ?_, ?_⟩
  · rw [hw, chunkList_length tb htb]
  · rw [hw, chunkList_flatten tb htb]
  · rw [hprog, List.getLast?_map, cumulativeSent_getLast 0 (chunkList tb data) hchne, hsum]
    simp [jsRound_self data.length hd]
  · rw [hfs]
    simp only
    have hdfw1 : delaysFollowedByWrite (specTransferTrace tm data.length 0 (chunkList tb data))
        = true :=
      delaysFollowedByWrite_specTransferTrace tm data.length 0 (chunkList tb data) (by omega)
    have hdfw2 : delaysFollowedByWrite
        (specTransferTrace tm data.length 0 (chunkList tb data)
          ++ [TransferEvent.logInfo "文件发送完毕"]) = true :=
      delaysFollowedByWrite_append _ _ hdfw1 (by rfl)
    simpa [delaysFollowedByWrite] using hdfw2
  · rw [hfs]

theorem fileSend_unpaused_transfer_correct_witness :
    (∀ i : Nat, (fun _ : Nat => false) i = false) ∧
    0 < ([1, 2, 3] : List Nat).length ∧ (0 : Nat) < 2 ∧ ([1, 2, 3] : List Nat).length ≤ 2 * 2 ∧
    ((writesOf (handleFileSendSerial (fun _ => false) "a.bin" [1, 2, 3] 2 5 2).1).length
      = (([1, 2, 3] : List Nat).length + 2 - 1) / 2 ∧
      (writesOf (handleFileSendSerial (fun _ => false) "a.bin" [1, 2, 3] 2 5 2).1).flatten
        = [1, 2, 3] ∧
      (progressOf (handleFileSendSerial (fun _ => false) "a.bin" [1, 2, 3] 2 5 2).1).getLast?
        = some 100 ∧
      delaysFollowedByWrite (handleFileSendSerial (fun _ => false) "a.bin" [1, 2, 3] 2 5 2).1
        = true) :=
  ⟨fun _ => rfl, by decide, by decide, by decide,
    (fileSend_unpaused_transfer_correct (fun _ => false) "a.bin" [1, 2, 3] 2 5 2
        (fun _ => rfl) (by decide) (by decide) (by decide)).2.1,
    (fileSend_unpaused_transfer_correct (fun _ => false) "a.bin" [1, 2, 3] 2 5 2
        (fun _ => rfl) (by decide) (by decide) (by decide)).2.2.1,
    (fileSend_unpaused_transfer_correct (fun _ => false) "a.bin" [1, 2, 3] 2 5 2
        (fun _ => rfl) (by decide) (by decide) (by decide)).2.2.2.2.1,
    (fileSend_unpaused_transfer_correct (fun _ => false) "a.bin" [1, 2, 3] 2 5 2
        (fun _ => rfl) (by decide) (by decide) (by decide)).2.2.2.2.2.1⟩

/-- Claim C2 (demonstrating the defect): a 2-byte transfer with chunk size
1 is started while the session is unpaused, and the session pause flag is
raised from iteration 1 on (`livePaused i = true` for `i ≥ 1`, i.e. the
user pauses mid-transfer).  The loop's pause check reads the
closure-captured `isPaused` of the invocation (constant `false`), not the
live flag, so the transfer issues both chunks, reaches the full sent
count, logs no aborted-transfer error, and logs completion — the
mid-transfer pause is ignored. -/
theorem fileSend_midtransfer_pause_ignored :
    (writesOf (handleFileSendSerial (fun i => decide (1 ≤ i)) "f.bin" [7, 7] 1 0 4).1).length
      = 2 ∧
    (handleFileSendSerial (fun i => decide (1 ≤ i)) "f.bin" [7, 7] 1 0 4).2 = 2 ∧
    ((handleFileSendSerial (fun i => decide (1 ≤ i)) "f.bin" [7, 7] 1 0 4).1.any fun e =>
      decide (e = TransferEvent.logError "文件发送中断: 已暂停")) = false ∧
    ((handleFileSendSerial (fun i => decide (1 ≤ i)) "f.bin" [7, 7] 1 0 4).1.any fun e =>
      decide (e = TransferEvent.logInfo "文件发送完毕")) = true := by
  decide

end WebSerial
